import Mathlib

/-!
Shallow embedding of the `prism` diff command (`src/cmd/diff.go`) together
with a verification of the specification's claims about it.

The numeric model idealizes Go `float64` arithmetic as exact rational
arithmetic (`ℚ`); every concrete value exercised here is exactly
representable in `float64`, and the one place where IEEE semantics differ
observably (division by zero producing a non-finite value) is modelled
explicitly by `FloatVal`/`fdiv` below.
-/

namespace Prism

/-! ### Decimal formatting helpers (model of Go `fmt` verbs) -/

/-- The character for a decimal digit `n < 10`. -/
def digitChar (n : Nat) : Char := Char.ofNat (48 + n)

/-- Fuel-driven digit expansion of a natural number, most significant digit
first.  Fuel `n + 1` is always sufficient for input `n`. -/
def natDigitsAux : Nat → Nat → List Char
  | 0, _ => []
  | fuel + 1, n =>
    if n < 10 then [digitChar n]
    else natDigitsAux fuel (n / 10) ++ [digitChar (n % 10)]

/-- Decimal digit list of a natural number. -/
def natDigits (n : Nat) : List Char := natDigitsAux (n + 1) n

/-- Decimal string of a natural number. -/
def natStr (n : Nat) : String := ⟨natDigits n⟩

/-- Decimal string of an integer (model of Go `%d`). -/
def intStr (n : Int) : String :=
  if n < 0 then "-" ++ natStr n.natAbs else natStr n.natAbs

/-- Round a rational to the nearest integer, ties to even (the rounding Go's
`fmt` applies to the last printed digit). -/
def roundTiesEven (q : ℚ) : Int :=
  let f := ⌊q⌋
  let frac := q - f
  if frac < 1 / 2 then f
  else if 1 / 2 < frac then f + 1
  else if f % 2 = 0 then f else f + 1

/-- Two-digit zero-padded string for `n < 100`. -/
def pad2 (n : Nat) : String := if n < 10 then "0" ++ natStr n else natStr n

/-- Model of Go `fmt.Sprintf("%1.2f", q)`: fixed two decimals.  (The width
specifier `1` never forces padding, since the shortest possible output
"0.00" is already wider.) -/
def fmt2 (q : ℚ) : String :=
  let n := roundTiesEven (q * 100)
  let sign := if n < 0 then "-" else ""
  let m := n.natAbs
  sign ++ natStr (m / 100) ++ "." ++ pad2 (m % 100)

/-- Model of Go `fmt.Sprintf("%2.1f", q)`: fixed one decimal.  (The width
specifier `2` never forces padding, since the shortest possible output
"0.0" is already wider.) -/
def fmt1 (q : ℚ) : String :=
  let n := roundTiesEven (q * 10)
  let sign := if n < 0 then "-" else ""
  let m := n.natAbs
  sign ++ natStr (m / 10) ++ "." ++ natStr (m % 10)

/-- Model of Go `strings.Repeat`. -/
def strRepeat (s : String) (n : Nat) : String := String.join (List.replicate n s)

/-- ANSI yellow, `"\033[33m"` in diff.go. -/
def cYellow : String := "\x1b[33m"

/-- ANSI green, `"\033[32m"` in diff.go. -/
def cGreen : String := "\x1b[32m"

/-- ANSI red, `"\033[31m"` in diff.go. -/
def cRed : String := "\x1b[31m"

/-- ANSI reset, `"\033[0m"` in diff.go. -/
def cReset : String := "\x1b[0m"

/-- The ANSI escape character that starts every color escape sequence. -/
def escChar : Char := Char.ofNat 27

/-- Whether a string contains the ANSI escape character (hence a color
escape sequence). -/
def strHasEsc (s : String) : Bool := s.data.contains escChar

/-- First-defined choice on options (used to describe overwriting map
updates: the left argument is the later write). -/
def optOr {α : Type} : Option α → Option α → Option α
  | some a, _ => some a
  | none, b => b

/-! ### The profile entry tree

Modelled from the spec: `profiler.Entry` lives in the `profiler` package,
which is not under `src/` (only `src/cmd/diff.go` consumes it).  Spec §3
("Metric Record") describes a function name, nanosecond-resolution signed
integer durations, an invocation count, a nesting depth and an ordered list
of children; the fields here are exactly the ones `diff.go` reads
(`Name`, `TotalTime`, `MinTime`, `MaxTime`, `Invocations`, `Depth`,
`Children`). -/

inductive Entry : Type where
  | mk (name : String) (totalTime minTime maxTime invocations : Int)
      (depth : Nat) (children : List Entry)

instance : Inhabited Entry := ⟨.mk "" 0 0 0 0 0 []⟩

/-- Function name of an entry. -/
def Entry.name : Entry → String
  | .mk n _ _ _ _ _ _ => n

/-- Total time of an entry, in nanoseconds. -/
def Entry.totalTime : Entry → Int
  | .mk _ t _ _ _ _ _ => t

/-- Min time of an entry, in nanoseconds. -/
def Entry.minTime : Entry → Int
  | .mk _ _ t _ _ _ _ => t

/-- Max time of an entry, in nanoseconds. -/
def Entry.maxTime : Entry → Int
  | .mk _ _ _ t _ _ _ => t

/-- Invocation count of an entry. -/
def Entry.invocations : Entry → Int
  | .mk _ _ _ _ i _ _ => i

/-- Nesting depth of an entry. -/
def Entry.depth : Entry → Nat
  | .mk _ _ _ _ _ d _ => d

/-- Children of an entry. -/
def Entry.children : Entry → List Entry
  | .mk _ _ _ _ _ _ c => c

mutual

/-- Depth-first pre-order listing of a profile tree's nodes: the node
itself, then the subtrees of its children in order.  This is the exact
visit order of both `populateEntryGroups` and `populateDiffRows`. -/
def preorder : Entry → List Entry
  | .mk n tt mnt mxt inv d children =>
      Entry.mk n tt mnt mxt inv d children :: preorderList children

/-- Pre-order listing of a forest, left to right. -/
def preorderList : List Entry → List Entry
  | [] => []
  | e :: rest => preorder e ++ preorderList rest

end

/-- All function names occurring in a profile tree. -/
def treeNames (e : Entry) : List String := (preorder e).map Entry.name

/-! ### The correlation map

`idToEntryMap` and `correlatedEntriesMap` are Go maps
(`map[int]*profiler.Entry` and `map[string]idToEntryMap`); they are
modelled as association lists with overwrite-on-insert, which matches Go
map reads and writes exactly (Go iteration order is unspecified, but every
iteration in diff.go writes to per-key-disjoint destinations, so a fixed
order is an admissible model). -/

/-- Model of `idToEntryMap = map[int]*profiler.Entry`. -/
abbrev idToEntryMap := List (Nat × Entry)

/-- Model of `correlatedEntriesMap = map[string]idToEntryMap`. -/
abbrev correlatedEntriesMap := List (String × idToEntryMap)

/-- Go map read on an `idToEntryMap`. -/
def lookupId : idToEntryMap → Nat → Option Entry
  | [], _ => none
  | (k, v) :: rest, i => if k = i then some v else lookupId rest i

/-- Go map write on an `idToEntryMap` (overwrites an existing key). -/
def setId : idToEntryMap → Nat → Entry → idToEntryMap
  | [], i, e => [(i, e)]
  | (k, v) :: rest, i, e => if k = i then (k, e) :: rest else (k, v) :: setId rest i e

/-- Go map read on a `correlatedEntriesMap`. -/
def lookupName : correlatedEntriesMap → String → Option idToEntryMap
  | [], _ => none
  | (k, v) :: rest, s => if k = s then some v else lookupName rest s

/-- Go map write on a `correlatedEntriesMap` (overwrites an existing key). -/
def setName : correlatedEntriesMap → String → idToEntryMap → correlatedEntriesMap
  | [], s, v => [(s, v)]
  | (k, w) :: rest, s, v => if k = s then (k, v) :: rest else (k, w) :: setName rest s v

/-- The correlation slot for function name `s` and profile index `i`:
`entryGroupsByName[s][i]` in Go (nil when either lookup misses). -/
def slot (groups : correlatedEntriesMap) (s : String) (i : Nat) : Option Entry :=
  match lookupName groups s with
  | some l => lookupId l i
  | none => none

/-- The body of `populateEntryGroups` before the recursion into children:
record `pe` under its name for profile `profileId`, overwriting any prior
entry for that (name, profile index) pair. -/
def recordEntry (profileId : Nat) (pe : Entry) (groups : correlatedEntriesMap) :
    correlatedEntriesMap :=
  match lookupName groups pe.name with
  | some list => setName groups pe.name (setId list profileId pe)
  | none => setName groups pe.name [(profileId, pe)]

mutual

/-- `populateEntryGroups` from diff.go: traverse the profile tree in
depth-first pre-order and group every visited node by its function name. -/
def populateEntryGroups (profileId : Nat) (pe : Entry) (groups : correlatedEntriesMap) :
    correlatedEntriesMap :=
  match pe with
  | .mk n tt mnt mxt inv d children =>
      populateEntryGroupsList profileId children
        (recordEntry profileId (Entry.mk n tt mnt mxt inv d children) groups)

/-- The `for _, child := range pe.Children` loop of `populateEntryGroups`. -/
def populateEntryGroupsList (profileId : Nat) (entries : List Entry)
    (groups : correlatedEntriesMap) : correlatedEntriesMap :=
  match entries with
  | [] => groups
  | child :: rest =>
      populateEntryGroupsList profileId rest (populateEntryGroups profileId child groups)

end

/-- The `for profileId, profile := range profiles` loop of
`correlateEntries`, with the running profile index made explicit. -/
def correlateFrom (profileId : Nat) (ps : List Entry) (groups : correlatedEntriesMap) :
    correlatedEntriesMap :=
  match ps with
  | [] => groups
  | p :: rest => correlateFrom (profileId + 1) rest (populateEntryGroups profileId p groups)

/-- `correlateEntries` from diff.go: group the nodes of all profile trees
by function name. -/
def correlateEntries (profiles : List Entry) : correlatedEntriesMap :=
  correlateFrom 0 profiles []

/-- The name occurring last among the pre-order nodes carrying name `s`. -/
def lastNamed (s : String) (xs : List Entry) : Option Entry :=
  (xs.filter (fun e => e.name == s)).getLast?

/-! ### `fmtDiff` (diff.go lines 209–237) -/

/-- The `diffEpsilon` constant of diff.go. -/
def diffEpsilon : ℚ := 1 / 100

/-- `fmtDiff` from diff.go: colorize and format the candidate value with a
comparison against the baseline value.  Lower values are better.  If the
absolute delta of the two values is below the threshold no comparison is
performed; the emitted comparison is the speedup factor `baseline /
candidate` rendered as `%2.1fx` (Go's width specifier 2 never pads, see
`fmt1`). -/
def fmtDiff (baseLine candidate threshold : ℚ) : String :=
  let absDelta := |baseLine - candidate|
  if absDelta < threshold then
    fmt2 candidate ++ " (--)"
  else
    let speedup : ℚ := if candidate ≠ 0 then baseLine / candidate else 0
    let speedup : ℚ := if absDelta < diffEpsilon then 1 else speedup
    let color := if speedup = 0 ∨ speedup = 1 then cYellow
      else if speedup ≥ 1 then cGreen
      else cRed
    fmt2 candidate ++ " (" ++ color ++ fmt1 speedup ++ "x" ++ cReset ++ ")"

/-! ### The float-division model for the zero-invocations hazard -/

/-- A `float64` result classified by finiteness. -/
inductive FloatVal : Type where
  | finite (q : ℚ)
  | nonFinite
deriving DecidableEq

/-- Model of Go `float64` division: dividing by (exact) zero yields a
non-finite value (`±Inf` when the numerator is non-zero, `NaN` for `0/0`;
both are collapsed into `nonFinite`), otherwise the exact quotient. -/
def fdiv (x y : ℚ) : FloatVal := if y = 0 then .nonFinite else .finite (x / y)

/-- The `avgTime` computation of `populateDiffRows` (diff.go line 156),
under the float-division model:
`float64(entry.TotalTime.Nanoseconds()) / float64(entry.Invocations*1e6)`. -/
def avgTimeVal (e : Entry) : FloatVal :=
  fdiv (e.totalTime : ℚ) ((e.invocations : ℚ) * 1000000)

/-! ### Table model

Modelled from the spec: `util.Table` is not under `src/` (only diff.go
uses it); spec §3 "Table" lists headers, header groups, per-column
alignment, rows and padding.  The fields here are the ones diff.go
writes. -/

/-- Column alignment directive. -/
inductive Alignment : Type where
  | alignLeft
  | alignRight
deriving DecidableEq

/-- One header group (`util.TableHeaderGroup`): a label spanning a number
of columns. -/
structure TableHeaderGroup : Type where
  header : String
  colSpan : Nat
deriving DecidableEq

/-- The table handed to the renderer (`util.Table`). -/
structure Table : Type where
  headers : List String
  headerGroups : List TableHeaderGroup
  alignment : List Alignment
  rows : List (List String)
  padding : Nat

/-- The table column kinds diff.go's switch statements handle
(`util.TableColumnType`). -/
inductive TableColumnType : Type where
  | total
  | avg
  | min
  | max
  | invocations
deriving DecidableEq

/-- Modelled from the spec: `util.TableColumnType.Header` is not under
`src/`; spec §6 lists the statistic identifiers used as column headers. -/
def TableColumnType.Header : TableColumnType → String
  | .total => "total"
  | .avg => "mean"
  | .min => "min"
  | .max => "max"
  | .invocations => "invoc"

/-! ### Row population (`populateDiffRows`, diff.go lines 138–207) -/

/-- `totalTime` as computed in `populateDiffRows`:
`float64(entry.TotalTime.Nanoseconds()) / 1.0e6`. -/
def totalTimeMs (e : Entry) : ℚ := (e.totalTime : ℚ) / 1000000

/-- `avgTime` as computed in `populateDiffRows`:
`float64(entry.TotalTime.Nanoseconds()) / float64(entry.Invocations*1e6)`.
ℚ-division is total (`x / 0 = 0`) where `float64` would give a non-finite
value; the zero-invocations case is modelled faithfully by `avgTimeVal`
instead (claim C9) and is the one place this definition idealizes. -/
def avgTimeMs (e : Entry) : ℚ := (e.totalTime : ℚ) / ((e.invocations : ℚ) * 1000000)

/-- `minTime` as computed in `populateDiffRows`. -/
def minTimeMs (e : Entry) : ℚ := (e.minTime : ℚ) / 1000000

/-- `maxTime` as computed in `populateDiffRows`. -/
def maxTimeMs (e : Entry) : ℚ := (e.maxTime : ℚ) / 1000000

/-- The measurement cell written when a baseline entry exists and the slot
is not the baseline slot (the `switch dType` block at diff.go lines
168–181). -/
def diffCell (dType : TableColumnType) (baseLine entry : Entry) (threshold : ℚ) : String :=
  match dType with
  | .total => fmtDiff (totalTimeMs baseLine) (totalTimeMs entry) threshold
  | .avg => fmtDiff (avgTimeMs baseLine) (avgTimeMs entry) threshold
  | .min => fmtDiff (minTimeMs baseLine) (minTimeMs entry) threshold
  | .max => fmtDiff (maxTimeMs baseLine) (maxTimeMs entry) threshold
  | .invocations => intStr entry.invocations

/-- The measurement cell written for the baseline slot or when no baseline
entry exists (the `switch dType` block at diff.go lines 183–196). -/
def plainCell (dType : TableColumnType) (entry : Entry) : String :=
  match dType with
  | .total => fmt2 (totalTimeMs entry) ++ " (---)"
  | .avg => fmt2 (avgTimeMs entry) ++ " (---)"
  | .min => fmt2 (minTimeMs entry) ++ " (---)"
  | .max => fmt2 (maxTimeMs entry) ++ " (---)"
  | .invocations => intStr entry.invocations

/-- The call-stack cell (diff.go lines 142–149): depth repetitions of the
tree guide, a leaf (`"- "`) or branch (`"+ "`) marker, then the name. -/
def callCell (pe : Entry) : String :=
  let call := strRepeat "| " pe.depth
  let call := if pe.children.length = 0 then call ++ "- " else call ++ "+ "
  call ++ pe.name

/-- One iteration of the `for profileId, entry := range
entryGroupsByName[pe.Name]` loop: write this profile's measurement cells
into the row at `baseIndex = profileId*len(diffCols) + 1`. -/
def writeEntryCells (row : List String) (profileId : Nat) (entry : Entry)
    (baseLine : Option Entry) (diffCols : List TableColumnType) (threshold : ℚ) :
    List String :=
  let baseIndex := profileId * diffCols.length + 1
  match baseLine with
  | some bl =>
      if profileId ≠ 0 then
        (diffCols.enum).foldl
          (fun r p => r.set (baseIndex + p.1) (diffCell p.2 bl entry threshold)) row
      else
        (diffCols.enum).foldl
          (fun r p => r.set (baseIndex + p.1) (plainCell p.2 entry)) row
  | none =>
      (diffCols.enum).foldl
        (fun r p => r.set (baseIndex + p.1) (plainCell p.2 entry)) row

/-- Proof artifact: `writeEntryCells` with every destination index shifted
down by one (used to peel the call-stack cell off a row). -/
def writeEntryCellsTail (row : List String) (profileId : Nat) (entry : Entry)
    (baseLine : Option Entry) (diffCols : List TableColumnType) (threshold : ℚ) :
    List String :=
  let baseIndex := profileId * diffCols.length
  match baseLine with
  | some bl =>
      if profileId ≠ 0 then
        (diffCols.enum).foldl
          (fun r p => r.set (baseIndex + p.1) (diffCell p.2 bl entry threshold)) row
      else
        (diffCols.enum).foldl
          (fun r p => r.set (baseIndex + p.1) (plainCell p.2 entry)) row
  | none =>
      (diffCols.enum).foldl
        (fun r p => r.set (baseIndex + p.1) (plainCell p.2 entry)) row

/-- The measurement-cell part of row population: look the row's name up in
the correlation map (missing key = empty Go map), take slot 0 as the
baseline entry, and write every correlated profile's cells.  The Go loop
iterates the map in unspecified order; since distinct profile ids write to
disjoint index ranges, insertion order is an admissible model. -/
def fillMetricCells (row : List String) (name : String)
    (entryGroupsByName : correlatedEntriesMap) (diffCols : List TableColumnType)
    (threshold : ℚ) : List String :=
  let slots := (lookupName entryGroupsByName name).getD []
  let baseLine := lookupId slots 0
  slots.foldl (fun r pidEntry =>
    writeEntryCells r pidEntry.1 pidEntry.2 baseLine diffCols threshold) row

/-- Proof artifact: `fillMetricCells` via `writeEntryCellsTail`. -/
def fillMetricCellsTail (row : List String) (name : String)
    (entryGroupsByName : correlatedEntriesMap) (diffCols : List TableColumnType)
    (threshold : ℚ) : List String :=
  let slots := (lookupName entryGroupsByName name).getD []
  let baseLine := lookupId slots 0
  slots.foldl (fun r pidEntry =>
    writeEntryCellsTail r pidEntry.1 pidEntry.2 baseLine diffCols threshold) row

/-- The single table row built for one visited node of the first profile's
tree (`populateDiffRows` body, before the recursion): a row of
`numProfiles*len(diffCols)+1` cells (Go zero value `""`), cell 0 the
call-stack cell, measurement cells filled from the correlation map. -/
def buildRow (pe : Entry) (numProfiles : Nat) (entryGroupsByName : correlatedEntriesMap)
    (diffCols : List TableColumnType) (threshold : ℚ) : List String :=
  fillMetricCells
    ((List.replicate (numProfiles * diffCols.length + 1) "").set 0 (callCell pe))
    pe.name entryGroupsByName diffCols threshold

mutual

/-- `populateDiffRows` from diff.go, with the appended rows made explicit
as the returned list: the visited node's row, then the rows of its
children's subtrees in order. -/
def populateDiffRows (pe : Entry) (numProfiles : Nat)
    (entryGroupsByName : correlatedEntriesMap) (diffCols : List TableColumnType)
    (threshold : ℚ) : List (List String) :=
  match pe with
  | .mk n tt mnt mxt inv d children =>
      buildRow (.mk n tt mnt mxt inv d children) numProfiles entryGroupsByName
          diffCols threshold
        :: populateDiffRowsList children numProfiles entryGroupsByName diffCols threshold

/-- The `for _, child := range pe.Children` loop of `populateDiffRows`. -/
def populateDiffRowsList (entries : List Entry) (numProfiles : Nat)
    (entryGroupsByName : correlatedEntriesMap) (diffCols : List TableColumnType)
    (threshold : ℚ) : List (List String) :=
  match entries with
  | [] => []
  | child :: rest =>
      populateDiffRows child numProfiles entryGroupsByName diffCols threshold
        ++ populateDiffRowsList rest numProfiles entryGroupsByName diffCols threshold

end

/-- `tabularizeDiff` from diff.go (lines 98–136): build headers, header
groups and alignments, then populate the rows from the first (baseline)
profile's tree.  Go indexes `profiles[0]`, which panics on an empty slice;
`headD` is the total model of that access (`DiffProfiles` guarantees at
least two profiles). -/
def tabularizeDiff (profiles : List Entry) (entryGroupsByName : correlatedEntriesMap)
    (diffCols : List TableColumnType) (threshold : ℚ) : Table :=
  let t : Table := {
    headers := (List.replicate (profiles.length * diffCols.length + 1) "").set 0 "call stack"
    headerGroups :=
      (List.replicate (profiles.length + 1) (TableHeaderGroup.mk "" 0)).set 0
        (TableHeaderGroup.mk "" 1)
    alignment :=
      (List.replicate (profiles.length * diffCols.length + 1) Alignment.alignLeft).set 0
        Alignment.alignLeft
    rows := []
    padding := 1 }
  let t := (List.range profiles.length).foldl (fun t index =>
    let baseIndex := 1 + index * diffCols.length
    let t := { t with
      headerGroups := t.headerGroups.set (1 + index)
        (TableHeaderGroup.mk
          (if index = 0 then "baseline" else "profile " ++ natStr index)
          diffCols.length) }
    (diffCols.enum).foldl (fun t p =>
      { t with
        alignment := t.alignment.set (baseIndex + p.1) Alignment.alignRight,
        headers := t.headers.set (baseIndex + p.1) p.2.Header }) t) t
  { t with rows :=
      (populateDiffRows (profiles.headD default) profiles.length entryGroupsByName
        diffCols threshold) }

/-! ### Display units

Modelled from the spec: the Unit Resolver (§4.3) belongs to the newer
rendering code that is not under `src/` (only `src/cmd/diff_test.go`
references display units such as `displayUnitMs` and the `display-unit`
flag).  Fixed requests map to constant nanoseconds-per-unit divisors 1,
1e3, 1e6 with fixed suffixes "ns"/"us"/"ms"; "auto" picks the coarsest
unit in which the representative sample is at least 1, uniformly for the
whole invocation. -/

/-- A requested display unit. -/
inductive DisplayUnit : Type where
  | unitNs
  | unitUs
  | unitMs
  | unitAuto
deriving DecidableEq

/-- Modelled from the spec (§4.3): map a requested unit and a
representative sample duration (raw nanoseconds) to a divisor/suffix
pair. -/
def resolveUnit : DisplayUnit → ℚ → ℚ × String
  | .unitNs, _ => (1, "ns")
  | .unitUs, _ => (1000, "us")
  | .unitMs, _ => (1000000, "ms")
  | .unitAuto, sample =>
      if 1000000 ≤ sample then (1000000, "ms")
      else if 1000 ≤ sample then (1000, "us")
      else (1, "ns")

/-- Modelled from the spec (§4.2 step 1): render one raw nanosecond value
under a resolved unit. -/
def renderDuration (scale : ℚ × String) (raw : ℚ) : String :=
  fmt2 (raw / scale.1) ++ " " ++ scale.2

/-- Modelled from the spec (§4.3): the unit is resolved once per
invocation from the representative sample and applied to every duration
cell of the table. -/
def renderTableDurations (u : DisplayUnit) (sample : ℚ) (cells : List ℚ) :
    List String :=
  cells.map (renderDuration (resolveUnit u sample))

/-! ### `DiffProfiles` (diff.go lines 29–65)

The two external collaborators are passed as parameters:
`parseTableColumList` models `util.ParseTableColumList` (not under `src/`;
per spec §7 its only failure mode is resolving no columns, so it is
modelled as total and the Go `err` check on it collapses), and
`loadProfile` models `profiler.LoadProfile` (not under `src/`; spec §7
error kind (c)), which can fail per argument. -/

/-- The slice of CLI state `DiffProfiles` reads from its `cli.Context`. -/
structure CliContext : Type where
  args : List String
  columns : String
  threshold : ℚ

/-- The error outcomes of `DiffProfiles` (`errNotEnoughProfiles`,
`errNoDiffColumnsSpecified`, and a propagated profile load error). -/
inductive DiffError : Type where
  | notEnoughProfiles
  | noDiffColumnsSpecified
  | loadError (msg : String)
deriving DecidableEq

/-- The `for index, arg := range args` load loop of `DiffProfiles`:
load every argument in order, aborting on the first failure. -/
def loadProfilesLoop (loadProfile : String → Except String Entry) :
    List String → Except String (List Entry)
  | [] => .ok []
  | arg :: rest =>
      match loadProfile arg with
      | .error e => .error e
      | .ok p =>
          match loadProfilesLoop loadProfile rest with
          | .error e => .error e
          | .ok ps => .ok (p :: ps)

/-- `DiffProfiles` from diff.go.  The table written to standard output is
modelled as the `Except.ok` payload (the Go function writes exactly one
table and returns `nil` on success; every error return happens before any
output). -/
def DiffProfiles (parseTableColumList : String → List TableColumnType)
    (loadProfile : String → Except String Entry) (ctx : CliContext) :
    Except DiffError Table :=
  if ctx.args.length < 2 then .error .notEnoughProfiles
  else
    let diffCols := parseTableColumList ctx.columns
    if diffCols.length = 0 then .error .noDiffColumnsSpecified
    else
      match loadProfilesLoop loadProfile ctx.args with
      | .error e => .error (.loadError e)
      | .ok profiles =>
          let correlMap := correlateEntries profiles
          .ok (tabularizeDiff profiles correlMap diffCols ctx.threshold)

/-! ### Association-list (Go map) lemmas -/

theorem optOr_some_left {α : Type} (a : α) (b : Option α) : optOr (some a) b = some a := rfl

theorem optOr_none_left {α : Type} (b : Option α) : optOr none b = b := rfl

theorem optOr_none_right {α : Type} (a : Option α) : optOr a none = a := by
  cases a <;> rfl

theorem optOr_assoc {α : Type} (a b c : Option α) :
    optOr (optOr a b) c = optOr a (optOr b c) := by
  cases a <;> cases b <;> rfl

theorem getLast?_cons {α : Type} (a : α) (l : List α) :
    (a :: l).getLast? = optOr l.getLast? (some a) := by
  cases l with
  | nil => rfl
  | cons b t =>
    rw [List.getLast?_cons_cons]
    have hs : ((b :: t).getLast?).isSome := List.getLast?_isSome.mpr (by simp)
    cases h : (b :: t).getLast? with
    | none => rw [h] at hs; simp at hs
    | some x => rfl

theorem getLast?_append {α : Type} (l₁ l₂ : List α) :
    (l₁ ++ l₂).getLast? = optOr l₂.getLast? l₁.getLast? := by
  induction l₁ with
  | nil => simp [optOr_none_right]
  | cons a l ih =>
    rw [List.cons_append, getLast?_cons, ih, getLast?_cons, optOr_assoc]

theorem lastNamed_append (s : String) (xs ys : List Entry) :
    lastNamed s (xs ++ ys) = optOr (lastNamed s ys) (lastNamed s xs) := by
  unfold lastNamed
  rw [List.filter_append, getLast?_append]

theorem lookupName_setName (m : correlatedEntriesMap) (k s : String) (v : idToEntryMap) :
    lookupName (setName m k v) s = if k = s then some v else lookupName m s := by
  induction m with
  | nil => simp [setName, lookupName]
  | cons hd tl ih =>
    obtain ⟨k₀, v₀⟩ := hd
    by_cases hk : k₀ = k
    · subst hk
      simp only [setName, if_pos rfl, lookupName]
      by_cases hs : k₀ = s <;> simp [hs]
    · simp only [setName, if_neg hk, lookupName, ih]
      by_cases hs : k₀ = s
      · subst hs
        simp [Ne.symm hk]
      · simp [hs]

theorem lookupId_setId (l : idToEntryMap) (k i : Nat) (e : Entry) :
    lookupId (setId l k e) i = if k = i then some e else lookupId l i := by
  induction l with
  | nil => simp [setId, lookupId]
  | cons hd tl ih =>
    obtain ⟨k₀, v₀⟩ := hd
    by_cases hk : k₀ = k
    · subst hk
      simp only [setId, if_pos rfl, lookupId]
      by_cases hi : k₀ = i <;> simp [hi]
    · simp only [setId, if_neg hk, lookupId, ih]
      by_cases hi : k₀ = i
      · subst hi
        simp [Ne.symm hk]
      · simp [hi]

theorem slot_recordEntry (i : Nat) (pe : Entry) (m : correlatedEntriesMap)
    (s : String) (j : Nat) :
    slot (recordEntry i pe m) s j =
      if pe.name = s ∧ i = j then some pe else slot m s j := by
  unfold slot recordEntry
  cases hm : lookupName m pe.name with
  | some list =>
    rw [lookupName_setName]
    by_cases hs : pe.name = s
    · subst hs
      simp [hm, lookupId_setId]
    · simp [hs]
  | none =>
    rw [lookupName_setName]
    by_cases hs : pe.name = s
    · subst hs
      simp [hm, lookupId]
    · simp [hs]

theorem lookupName_recordEntry_isSome (i : Nat) (pe : Entry) (m : correlatedEntriesMap)
    (s : String) :
    (lookupName (recordEntry i pe m) s).isSome
      ↔ pe.name = s ∨ (lookupName m s).isSome := by
  unfold recordEntry
  cases hm : lookupName m pe.name with
  | some list =>
    rw [lookupName_setName]
    by_cases hs : pe.name = s
    · subst hs
      simp [hm]
    · simp [hs]
  | none =>
    rw [lookupName_setName]
    by_cases hs : pe.name = s
    · subst hs
      simp [hm]
    · simp [hs]

theorem lastNamed_preorder (s : String) (n : String) (tt mnt mxt inv : Int) (d : Nat)
    (children : List Entry) :
    lastNamed s (preorder (.mk n tt mnt mxt inv d children))
      = if n = s then optOr (lastNamed s (preorderList children))
          (some (.mk n tt mnt mxt inv d children))
        else lastNamed s (preorderList children) := by
  unfold preorder lastNamed
  by_cases hn : n = s
  · simp only [List.filter_cons, Entry.name, hn]
    simp [getLast?_cons, lastNamed]
  · simp only [List.filter_cons, Entry.name]
    simp [hn, lastNamed]

/-! ### What `populateEntryGroups` does to the correlation map -/

mutual

/-- Effect of one profile traversal on one slot: the slot of the traversed
profile index becomes the last pre-order node with the looked-up name (if
any), every other slot is untouched. -/
theorem slot_populate (i : Nat) (pe : Entry) (m : correlatedEntriesMap)
    (s : String) (j : Nat) :
    slot (populateEntryGroups i pe m) s j =
      if i = j then optOr (lastNamed s (preorder pe)) (slot m s j) else slot m s j := by
  cases pe with
  | mk n tt mnt mxt inv d children =>
    rw [populateEntryGroups, slot_populateList, slot_recordEntry, lastNamed_preorder]
    by_cases hij : i = j
    · subst hij
      by_cases hn : n = s
      · simp [Entry.name, hn, optOr_assoc, optOr_some_left]
      · simp [Entry.name, hn]
    · simp [hij]

/-- Forest version of `slot_populate`. -/
theorem slot_populateList (i : Nat) (entries : List Entry) (m : correlatedEntriesMap)
    (s : String) (j : Nat) :
    slot (populateEntryGroupsList i entries m) s j =
      if i = j then optOr (lastNamed s (preorderList entries)) (slot m s j)
      else slot m s j := by
  cases entries with
  | nil =>
    simp only [populateEntryGroupsList, preorderList]
    by_cases hij : i = j <;> simp [hij, lastNamed, lookupId, optOr_none_left]
  | cons child rest =>
    rw [populateEntryGroupsList, slot_populateList, slot_populate, preorderList,
      lastNamed_append]
    by_cases hij : i = j
    · simp [hij, optOr_assoc]
    · simp [hij]

end

mutual

/-- A name has a correlation row after one profile traversal iff it had one
before or it occurs in the traversed tree. -/
theorem lookupName_populate_isSome (i : Nat) (pe : Entry) (m : correlatedEntriesMap)
    (s : String) :
    (lookupName (populateEntryGroups i pe m) s).isSome
      ↔ s ∈ treeNames pe ∨ (lookupName m s).isSome := by
  cases pe with
  | mk n tt mnt mxt inv d children =>
    rw [populateEntryGroups, lookupName_populateList_isSome, lookupName_recordEntry_isSome]
    simp only [treeNames, preorder, List.map_cons, Entry.name, List.mem_cons]
    constructor
    · rintro (h | h | h)
      · exact Or.inl (Or.inr h)
      · exact Or.inl (Or.inl h.symm)
      · exact Or.inr h
    · rintro ((h | h) | h)
      · exact Or.inr (Or.inl h.symm)
      · exact Or.inl h
      · exact Or.inr (Or.inr h)

/-- Forest version of `lookupName_populate_isSome`. -/
theorem lookupName_populateList_isSome (i : Nat) (entries : List Entry)
    (m : correlatedEntriesMap) (s : String) :
    (lookupName (populateEntryGroupsList i entries m) s).isSome
      ↔ s ∈ (preorderList entries).map Entry.name ∨ (lookupName m s).isSome := by
  cases entries with
  | nil => simp [populateEntryGroupsList, preorderList]
  | cons child rest =>
    rw [populateEntryGroupsList, lookupName_populateList_isSome,
      lookupName_populate_isSome]
    simp only [preorderList, List.map_append, List.mem_append, treeNames]
    tauto

end

theorem mem_keys_setName (m : correlatedEntriesMap) (k s : String) (v : idToEntryMap) :
    s ∈ (setName m k v).map Prod.fst ↔ s ∈ m.map Prod.fst ∨ s = k := by
  induction m with
  | nil => simp [setName]
  | cons hd tl ih =>
    obtain ⟨k₀, v₀⟩ := hd
    by_cases hk : k₀ = k
    · subst hk
      simp [setName]
      tauto
    · simp [setName, hk, ih]
      tauto

theorem nodup_keys_setName (m : correlatedEntriesMap) (k : String) (v : idToEntryMap)
    (h : (m.map Prod.fst).Nodup) : ((setName m k v).map Prod.fst).Nodup := by
  induction m with
  | nil => simp [setName]
  | cons hd tl ih =>
    obtain ⟨k₀, v₀⟩ := hd
    simp only [List.map_cons, List.nodup_cons] at h
    by_cases hk : k₀ = k
    · subst hk
      simpa [setName] using h
    · simp only [setName, if_neg hk, List.map_cons, List.nodup_cons]
      refine ⟨?_, ih h.2⟩
      rw [mem_keys_setName]
      rintro (hmem | hmem)
      · exact h.1 hmem
      · exact hk hmem

theorem nodup_keys_recordEntry (i : Nat) (pe : Entry) (m : correlatedEntriesMap)
    (h : (m.map Prod.fst).Nodup) : ((recordEntry i pe m).map Prod.fst).Nodup := by
  unfold recordEntry
  cases lookupName m pe.name <;> exact nodup_keys_setName _ _ _ h

mutual

/-- `populateEntryGroups` never duplicates a correlation-map key. -/
theorem nodup_keys_populate (i : Nat) (pe : Entry) (m : correlatedEntriesMap)
    (h : (m.map Prod.fst).Nodup) :
    ((populateEntryGroups i pe m).map Prod.fst).Nodup := by
  cases pe with
  | mk n tt mnt mxt inv d children =>
    rw [populateEntryGroups]
    exact nodup_keys_populateList i children _ (nodup_keys_recordEntry _ _ _ h)

/-- Forest version of `nodup_keys_populate`. -/
theorem nodup_keys_populateList (i : Nat) (entries : List Entry)
    (m : correlatedEntriesMap) (h : (m.map Prod.fst).Nodup) :
    ((populateEntryGroupsList i entries m).map Prod.fst).Nodup := by
  cases entries with
  | nil => exact h
  | cons child rest =>
    rw [populateEntryGroupsList]
    exact nodup_keys_populateList i rest _ (nodup_keys_populate i child m h)

end

/-! ### What `correlateEntries` builds -/

theorem slot_nil (s : String) (i : Nat) : slot [] s i = none := rfl

theorem slot_correlateFrom (ps : List Entry) (k : Nat) (m : correlatedEntriesMap)
    (s : String) (i : Nat) :
    slot (correlateFrom k ps m) s i =
      if k ≤ i ∧ i < k + ps.length then
        optOr (lastNamed s (preorder (ps.getD (i - k) default))) (slot m s i)
      else slot m s i := by
  induction ps generalizing k m with
  | nil =>
    rw [correlateFrom, if_neg (by simp only [List.length_nil]; omega)]
  | cons p rest ih =>
    rw [correlateFrom, ih, slot_populate]
    by_cases hik : i = k
    · subst hik
      rw [if_neg (by omega), if_pos rfl,
        if_pos (by simp only [List.length_cons]; omega)]
      simp
    · by_cases hrange : k + 1 ≤ i ∧ i < k + 1 + rest.length
      · rw [if_pos hrange, if_neg (by omega),
          if_pos (by simp only [List.length_cons]; omega)]
        have hsub : i - k = (i - k - 1) + 1 := by omega
        rw [hsub, List.getD_cons_succ]
        have hsub2 : i - k - 1 = i - (k + 1) := by omega
        rw [hsub2]
      · rw [if_neg hrange, if_neg (by omega),
          if_neg (by simp only [List.length_cons]; omega)]

theorem lookupName_correlateFrom_isSome (ps : List Entry) (k : Nat)
    (m : correlatedEntriesMap) (s : String) :
    (lookupName (correlateFrom k ps m) s).isSome
      ↔ (∃ p ∈ ps, s ∈ treeNames p) ∨ (lookupName m s).isSome := by
  induction ps generalizing k m with
  | nil => simp [correlateFrom]
  | cons p rest ih =>
    rw [correlateFrom, ih, lookupName_populate_isSome]
    simp only [List.mem_cons]
    constructor
    · rintro (⟨q, hq, hs⟩ | h | h)
      · exact Or.inl ⟨q, Or.inr hq, hs⟩
      · exact Or.inl ⟨p, Or.inl rfl, h⟩
      · exact Or.inr h
    · rintro (⟨q, hq | hq, hs⟩ | h)
      · exact Or.inr (Or.inl (hq ▸ hs))
      · exact Or.inl ⟨q, hq, hs⟩
      · exact Or.inr (Or.inr h)

theorem nodup_keys_correlateFrom (ps : List Entry) (k : Nat) (m : correlatedEntriesMap)
    (h : (m.map Prod.fst).Nodup) : ((correlateFrom k ps m).map Prod.fst).Nodup := by
  induction ps generalizing k m with
  | nil => exact h
  | cons p rest ih =>
    rw [correlateFrom]
    exact ih (k + 1) _ (nodup_keys_populate k p m h)

theorem lastNamed_isSome (s : String) (xs : List Entry) :
    (lastNamed s xs).isSome ↔ s ∈ xs.map Entry.name := by
  unfold lastNamed
  rw [List.getLast?_isSome]
  constructor
  · intro h
    rcases List.exists_mem_of_ne_nil _ h with ⟨e, he⟩
    rw [List.mem_filter] at he
    exact List.mem_map.mpr ⟨e, he.1, by simpa using he.2⟩
  · intro h
    rcases List.mem_map.mp h with ⟨e, he, hname⟩
    intro hnil
    have : e ∈ xs.filter (fun e => e.name == s) :=
      List.mem_filter.mpr ⟨he, by simpa using hname⟩
    rw [hnil] at this
    simp at this

/-- Final shape of one slot of the full correlation map: for a profile
index in range, the slot holds the last pre-order node of that profile's
tree carrying the looked-up name (or nothing). -/
theorem slot_correlateEntries (profiles : List Entry) (s : String) (i : Nat)
    (hi : i < profiles.length) :
    slot (correlateEntries profiles) s i
      = lastNamed s (preorder (profiles.getD i default)) := by
  rw [correlateEntries, slot_correlateFrom, if_pos (by omega), slot_nil, optOr_none_right]
  simp

/-- C1: `correlateEntries` returns a map with exactly one entry per
distinct function name occurring anywhere in any of the trees (keys are
duplicate-free, and a key is present iff some profile's tree contains that
name), and for every name the slot for profile `i` is populated iff
profile `i`'s tree contains a node with that name — independent of tree
shape, since everything is phrased over the pre-order node listing. -/
theorem correlateEntries_groupsByName (profiles : List Entry) (hne : profiles ≠ []) :
    ((correlateEntries profiles).map Prod.fst).Nodup
    ∧ (∀ s, (lookupName (correlateEntries profiles) s).isSome
        ↔ ∃ p ∈ profiles, s ∈ treeNames p)
    ∧ (∀ i, i < profiles.length → ∀ s,
        (slot (correlateEntries profiles) s i).isSome
          ↔ s ∈ treeNames (profiles.getD i default)) := by
  refine ⟨?_, ?_, ?_⟩
  · exact nodup_keys_correlateFrom profiles 0 [] (by simp)
  · intro s
    rw [correlateEntries, lookupName_correlateFrom_isSome]
    simp [lookupName]
  · intro i hi s
    rw [slot_correlateEntries profiles s i hi, lastNamed_isSome]
    rfl

/-- Witness for C1, on the two trees of `TestCorrelateEntries`:
`main(foo(bar))` and `main(bar)`. -/
theorem correlateEntries_groupsByName_witness :
    ([Entry.mk "main" 0 0 0 0 0 [.mk "foo" 0 0 0 0 1 [.mk "bar" 0 0 0 0 2 []]],
      Entry.mk "main" 0 0 0 0 0 [.mk "bar" 0 0 0 0 1 []]] : List Entry) ≠ []
    ∧ (((correlateEntries
          [Entry.mk "main" 0 0 0 0 0 [.mk "foo" 0 0 0 0 1 [.mk "bar" 0 0 0 0 2 []]],
           Entry.mk "main" 0 0 0 0 0 [.mk "bar" 0 0 0 0 1 []]]).map Prod.fst).Nodup
      ∧ (∀ s, (lookupName (correlateEntries
            [Entry.mk "main" 0 0 0 0 0 [.mk "foo" 0 0 0 0 1 [.mk "bar" 0 0 0 0 2 []]],
             Entry.mk "main" 0 0 0 0 0 [.mk "bar" 0 0 0 0 1 []]]) s).isSome
          ↔ ∃ p ∈ [Entry.mk "main" 0 0 0 0 0 [.mk "foo" 0 0 0 0 1 [.mk "bar" 0 0 0 0 2 []]],
                   Entry.mk "main" 0 0 0 0 0 [.mk "bar" 0 0 0 0 1 []]], s ∈ treeNames p)
      ∧ (∀ i, i < ([Entry.mk "main" 0 0 0 0 0 [.mk "foo" 0 0 0 0 1 [.mk "bar" 0 0 0 0 2 []]],
                    Entry.mk "main" 0 0 0 0 0 [.mk "bar" 0 0 0 0 1 []]] : List Entry).length → ∀ s,
          (slot (correlateEntries
              [Entry.mk "main" 0 0 0 0 0 [.mk "foo" 0 0 0 0 1 [.mk "bar" 0 0 0 0 2 []]],
               Entry.mk "main" 0 0 0 0 0 [.mk "bar" 0 0 0 0 1 []]]) s i).isSome
            ↔ s ∈ treeNames (([Entry.mk "main" 0 0 0 0 0 [.mk "foo" 0 0 0 0 1 [.mk "bar" 0 0 0 0 2 []]],
                Entry.mk "main" 0 0 0 0 0 [.mk "bar" 0 0 0 0 1 []]] : List Entry).getD i default))) :=
  ⟨by simp, correlateEntries_groupsByName _ (by simp)⟩

/-- C3: within one profile, several nodes sharing a function name collapse
to the last node visited in depth-first pre-order: the correlation slot for
(name, profile index) equals the last element of the pre-order node list of
that profile filtered to that name. -/
theorem correlateEntries_lastWriteWins (profiles : List Entry) (i : Nat)
    (hi : i < profiles.length) (s : String)
    (hocc : s ∈ treeNames (profiles.getD i default)) :
    slot (correlateEntries profiles) s i
      = ((preorder (profiles.getD i default)).filter (fun e => e.name == s)).getLast? := by
  rw [slot_correlateEntries profiles s i hi]
  rfl

/-- Witness for C3: a profile with two distinct nodes named "b"
(total times 1 and 2); the theorem picks out the later one. -/
theorem correlateEntries_lastWriteWins_witness :
    0 < ([Entry.mk "main" 10 0 0 1 0 [.mk "b" 1 0 0 1 1 [], .mk "b" 2 0 0 1 1 []]] : List Entry).length
    ∧ "b" ∈ treeNames (([Entry.mk "main" 10 0 0 1 0 [.mk "b" 1 0 0 1 1 [], .mk "b" 2 0 0 1 1 []]] : List Entry).getD 0 default)
    ∧ slot (correlateEntries [Entry.mk "main" 10 0 0 1 0 [.mk "b" 1 0 0 1 1 [], .mk "b" 2 0 0 1 1 []]]) "b" 0
        = ((preorder (([Entry.mk "main" 10 0 0 1 0 [.mk "b" 1 0 0 1 1 [], .mk "b" 2 0 0 1 1 []]] : List Entry).getD 0 default)).filter
            (fun e => e.name == "b")).getLast? :=
  ⟨by decide, by decide,
    correlateEntries_lastWriteWins
      [Entry.mk "main" 10 0 0 1 0 [.mk "b" 1 0 0 1 1 [], .mk "b" 2 0 0 1 1 []]]
      0 (by decide) "b" (by decide)⟩

theorem natDigitsAux_no_esc (fuel n : Nat) :
    ∀ ch ∈ natDigitsAux fuel n, ch ≠ escChar := by
  induction fuel generalizing n with
  | zero => simp [natDigitsAux]
  | succ fuel ih =>
    intro ch hch
    rw [natDigitsAux] at hch
    by_cases hn : n < 10
    · rw [if_pos hn] at hch
      simp only [List.mem_singleton] at hch
      subst hch
      unfold digitChar escChar
      interval_cases n <;> decide
    · rw [if_neg hn] at hch
      rcases List.mem_append.mp hch with h | h
      · exact ih _ ch h
      · simp only [List.mem_singleton] at h
        subst h
        have hlt : n % 10 < 10 := Nat.mod_lt _ (by omega)
        unfold digitChar escChar
        interval_cases h : n % 10 <;> decide

theorem natStr_no_esc (n : Nat) : escChar ∉ (natStr n).data := by
  intro h
  exact natDigitsAux_no_esc (n + 1) n escChar h rfl

theorem fmt2_no_esc (q : ℚ) : escChar ∉ (fmt2 q).data := by
  unfold fmt2 pad2
  intro h
  simp only [String.data_append, List.mem_append] at h
  rcases h with ((h | h) | h) | h
  · by_cases hneg : roundTiesEven (q * 100) < 0
    · rw [if_pos hneg] at h
      revert h
      decide
    · rw [if_neg hneg] at h
      simp at h
  · exact natStr_no_esc _ h
  · revert h
    decide
  · by_cases hlt : (roundTiesEven (q * 100)).natAbs % 100 < 10
    · rw [if_pos hlt] at h
      rcases List.mem_append.mp (String.data_append _ _ ▸ h) with h | h
      · revert h
        decide
      · exact natStr_no_esc _ h
    · rw [if_neg hlt] at h
      exact natStr_no_esc _ h

theorem strHasEsc_eq_false_iff (s : String) : strHasEsc s = false ↔ escChar ∉ s.data := by
  unfold strHasEsc
  simp

/-- C6: whenever the absolute delta of baseline and candidate (both already
expressed at millisecond magnitude by the caller) is strictly below the
clip threshold, `fmtDiff` renders the candidate value followed by the
neutral marker `(--)`, with no percentage/ratio comparison and no ANSI
color escape sequence. -/
theorem fmtDiff_below_threshold_neutral (baseLine candidate threshold : ℚ)
    (h : |baseLine - candidate| < threshold) :
    fmtDiff baseLine candidate threshold = fmt2 candidate ++ " (--)"
    ∧ strHasEsc (fmtDiff baseLine candidate threshold) = false := by
  have heq : fmtDiff baseLine candidate threshold = fmt2 candidate ++ " (--)" := by
    unfold fmtDiff
    rw [if_pos h]
  refine ⟨heq, ?_⟩
  rw [heq, strHasEsc_eq_false_iff]
  intro hmem
  rcases List.mem_append.mp (String.data_append _ _ ▸ hmem) with hmem | hmem
  · exact fmt2_no_esc _ hmem
  · revert hmem
    decide

/-- Witness for C6: baseline 10 ms, candidate 10 ms, threshold 1 renders
neutrally with no escapes. -/
theorem fmtDiff_below_threshold_neutral_witness :
    |(10 : ℚ) - 10| < 1
    ∧ (fmtDiff 10 10 1 = fmt2 10 ++ " (--)" ∧ strHasEsc (fmtDiff 10 10 1) = false) :=
  ⟨by norm_num, fmtDiff_below_threshold_neutral 10 10 1 (by norm_num)⟩

theorem fmt2_ten : fmt2 (10 : ℚ) = "10.00" := by
  have h : roundTiesEven ((10 : ℚ) * 100) = 1000 := by norm_num [roundTiesEven]
  simp [fmt2, h]
  decide

theorem fmt2_zero : fmt2 (0 : ℚ) = "0.00" := by
  have h : roundTiesEven (0 : ℚ) = 0 := by norm_num [roundTiesEven]
  simp [fmt2, h]
  decide

theorem fmt1_twelve : fmt1 (12 : ℚ) = "12.0" := by
  have h : roundTiesEven ((12 : ℚ) * 10) = 120 := by norm_num [roundTiesEven]
  simp [fmt1, h]
  decide

theorem fmt1_zero : fmt1 (0 : ℚ) = "0.0" := by
  have h : roundTiesEven (0 : ℚ) = 0 := by norm_num [roundTiesEven]
  simp [fmt1, h]
  decide

/-- C4 (code bug): at the spec's example input — baseline total 120,000,000
ns, candidate total 10,000,000 ns (120 ms vs 10 ms after the fixed 1e6
division of `populateDiffRows`), threshold 10 — the `fmtDiff` in
src/cmd/diff.go renders a green speedup *factor* `10.00 (12.0x)` with no
unit suffix, not the percentage rendering `10.00 ms (↓ 1100.0%)` that the
claim states and that the repository's own tests (`TestFmtDiff`,
`TestDiffWithProfileLabel` in src/cmd/diff_test.go) require. -/
theorem fmtDiff_c4_failing_input :
    fmtDiff 120 10 10 = "10.00 (" ++ cGreen ++ "12.0x" ++ cReset ++ ")"
    ∧ fmtDiff 120 10 10 ≠ "10.00 ms (\u2193 1100.0%)" := by
  have habs : ¬(|(120 : ℚ) - 10| < 10) := by norm_num
  have heps : ¬(|(120 : ℚ) - 10| < diffEpsilon) := by norm_num [diffEpsilon]
  have hdiv : (120 : ℚ) / 10 = 12 := by norm_num
  have heq : fmtDiff 120 10 10 = "10.00 (" ++ cGreen ++ "12.0x" ++ cReset ++ ")" := by
    rw [fmtDiff]
    rw [if_neg habs]
    simp only [hdiv, if_neg heps]
    rw [if_pos (show (10 : ℚ) ≠ 0 by norm_num)]
    rw [if_neg (show ¬((12 : ℚ) = 0 ∨ (12 : ℚ) = 1) by norm_num)]
    rw [if_pos (show (12 : ℚ) ≥ 1 by norm_num)]
    rw [fmt2_ten, fmt1_twelve]
    decide
  refine ⟨heq, ?_⟩
  rw [heq]
  decide

/-- C5 (code bug): for baseline 10 ms, candidate 0 ms and threshold 0, the
`fmtDiff` in src/cmd/diff.go does define the speedup as 0 and classify it
as the neutral (yellow) case, but it renders `0.00 (0.0x)` in yellow — not
the plain neutral marker `0.00 ms (--)` that the claim states and that the
repository's own test (`TestFmtDiff`, spec index 3, in
src/cmd/diff_test.go) requires. -/
theorem fmtDiff_c5_failing_input :
    fmtDiff 10 0 0 = "0.00 (" ++ cYellow ++ "0.0x" ++ cReset ++ ")"
    ∧ fmtDiff 10 0 0 ≠ "0.00 ms (--)" := by
  have habs : ¬(|(10 : ℚ) - 0| < 0) := by norm_num
  have heps : ¬(|(10 : ℚ) - 0| < diffEpsilon) := by norm_num [diffEpsilon]
  have heq : fmtDiff 10 0 0 = "0.00 (" ++ cYellow ++ "0.0x" ++ cReset ++ ")" := by
    rw [fmtDiff]
    rw [if_neg habs]
    rw [if_neg (show ¬((0 : ℚ) ≠ 0) by norm_num)]
    simp only [if_neg heps]
    rw [if_pos (show (True ∨ (0 : ℚ) = 1) from Or.inl trivial)]
    rw [fmt2_zero, fmt1_zero]
    decide
  refine ⟨heq, ?_⟩
  rw [heq]
  decide

/-! ### Row emission order (claim C2) -/

mutual

/-- The rows appended by `populateDiffRows` are exactly one `buildRow` per
pre-order node of the traversed tree, in pre-order. -/
theorem populateDiffRows_eq_map (pe : Entry) (numProfiles : Nat)
    (entryGroupsByName : correlatedEntriesMap) (diffCols : List TableColumnType)
    (threshold : ℚ) :
    populateDiffRows pe numProfiles entryGroupsByName diffCols threshold
      = (preorder pe).map
          (fun e => buildRow e numProfiles entryGroupsByName diffCols threshold) := by
  cases pe with
  | mk n tt mnt mxt inv d children =>
    rw [populateDiffRows, preorder, List.map_cons,
      populateDiffRowsList_eq_map children numProfiles entryGroupsByName diffCols threshold]

/-- Forest version of `populateDiffRows_eq_map`. -/
theorem populateDiffRowsList_eq_map (entries : List Entry) (numProfiles : Nat)
    (entryGroupsByName : correlatedEntriesMap) (diffCols : List TableColumnType)
    (threshold : ℚ) :
    populateDiffRowsList entries numProfiles entryGroupsByName diffCols threshold
      = (preorderList entries).map
          (fun e => buildRow e numProfiles entryGroupsByName diffCols threshold) := by
  cases entries with
  | nil => rfl
  | cons child rest =>
    rw [populateDiffRowsList, preorderList, List.map_append,
      populateDiffRows_eq_map child numProfiles entryGroupsByName diffCols threshold,
      populateDiffRowsList_eq_map rest numProfiles entryGroupsByName diffCols threshold]

end

/-- The rows field of the assembled table is the row list built from the
first profile's tree. -/
theorem tabularizeDiff_rows (profiles : List Entry)
    (entryGroupsByName : correlatedEntriesMap) (diffCols : List TableColumnType)
    (threshold : ℚ) :
    (tabularizeDiff profiles entryGroupsByName diffCols threshold).rows
      = populateDiffRows (profiles.headD default) profiles.length entryGroupsByName
          diffCols threshold := by
  rw [tabularizeDiff]

/-- C2: the table rows are emitted exactly in the depth-first pre-order of
the first (baseline) profile's tree — the row list is literally the map of
`buildRow` over that tree's pre-order node listing — and consequently
every row is anchored to a baseline-tree node, so a function name that
appears only in non-baseline profiles produces no row of its own. -/
theorem tabularizeDiff_rows_baseline_preorder (profiles : List Entry)
    (entryGroupsByName : correlatedEntriesMap) (diffCols : List TableColumnType)
    (threshold : ℚ) (hne : profiles ≠ []) :
    (tabularizeDiff profiles entryGroupsByName diffCols threshold).rows
      = (preorder (profiles.headD default)).map
          (fun e => buildRow e profiles.length entryGroupsByName diffCols threshold)
    ∧ ∀ row ∈ (tabularizeDiff profiles entryGroupsByName diffCols threshold).rows,
        ∃ e ∈ preorder (profiles.headD default),
          row = buildRow e profiles.length entryGroupsByName diffCols threshold := by
  have h := tabularizeDiff_rows profiles entryGroupsByName diffCols threshold
  rw [populateDiffRows_eq_map] at h
  refine ⟨h, ?_⟩
  intro row hrow
  rw [h] at hrow
  rcases List.mem_map.mp hrow with ⟨e, he, heq⟩
  exact ⟨e, he, heq.symm⟩

/-- Witness for C2, on a two-profile invocation. -/
theorem tabularizeDiff_rows_baseline_preorder_witness :
    ([Entry.mk "main" 120000000 0 0 1 0 [], Entry.mk "main" 10000000 0 0 1 0 []] : List Entry) ≠ []
    ∧ ((tabularizeDiff
          [Entry.mk "main" 120000000 0 0 1 0 [], Entry.mk "main" 10000000 0 0 1 0 []]
          (correlateEntries
            [Entry.mk "main" 120000000 0 0 1 0 [], Entry.mk "main" 10000000 0 0 1 0 []])
          [TableColumnType.total] 10).rows
        = (preorder (([Entry.mk "main" 120000000 0 0 1 0 [],
              Entry.mk "main" 10000000 0 0 1 0 []] : List Entry).headD default)).map
            (fun e => buildRow e
              ([Entry.mk "main" 120000000 0 0 1 0 [],
                Entry.mk "main" 10000000 0 0 1 0 []] : List Entry).length
              (correlateEntries
                [Entry.mk "main" 120000000 0 0 1 0 [], Entry.mk "main" 10000000 0 0 1 0 []])
              [TableColumnType.total] 10)
      ∧ ∀ row ∈ (tabularizeDiff
          [Entry.mk "main" 120000000 0 0 1 0 [], Entry.mk "main" 10000000 0 0 1 0 []]
          (correlateEntries
            [Entry.mk "main" 120000000 0 0 1 0 [], Entry.mk "main" 10000000 0 0 1 0 []])
          [TableColumnType.total] 10).rows,
          ∃ e ∈ preorder (([Entry.mk "main" 120000000 0 0 1 0 [],
              Entry.mk "main" 10000000 0 0 1 0 []] : List Entry).headD default),
            row = buildRow e
              ([Entry.mk "main" 120000000 0 0 1 0 [],
                Entry.mk "main" 10000000 0 0 1 0 []] : List Entry).length
              (correlateEntries
                [Entry.mk "main" 120000000 0 0 1 0 [], Entry.mk "main" 10000000 0 0 1 0 []])
              [TableColumnType.total] 10) :=
  ⟨by simp,
    tabularizeDiff_rows_baseline_preorder
      [Entry.mk "main" 120000000 0 0 1 0 [], Entry.mk "main" 10000000 0 0 1 0 []]
      (correlateEntries
        [Entry.mk "main" 120000000 0 0 1 0 [], Entry.mk "main" 10000000 0 0 1 0 []])
      [TableColumnType.total] 10 (by simp)⟩

/-! ### The zero-invocations division (claim C9) -/

/-- C9: a structurally valid entry whose invocation count is zero makes the
displayed mean-time computation (`totalTime / (invocations * 1e6)`, a
`float64` division in Go) non-finite, and nothing guards against it: the
row-population code still emits a row for such a node. -/
theorem avgTime_zero_invocations_nonfinite :
    avgTimeVal (Entry.mk "zeroInv" 5000000 1000000 2000000 0 0 []) = FloatVal.nonFinite
    ∧ (populateDiffRows (Entry.mk "zeroInv" 5000000 1000000 2000000 0 0 [])
        1 (correlateEntries [Entry.mk "zeroInv" 5000000 1000000 2000000 0 0 []])
        [TableColumnType.avg] 0).length = 1 := by
  constructor
  · rw [avgTimeVal, fdiv]
    simp [Entry.invocations]
  · rw [populateDiffRows, populateDiffRowsList]
    rfl

/-! ### Duplicate baseline names share metric cells (claim C10) -/

theorem foldl_set_shift (ps : List (Nat × TableColumnType))
    (cellf : Nat × TableColumnType → String) (base : Nat) (x : String)
    (l : List String) :
    ps.foldl (fun r p => r.set (base + 1 + p.1) (cellf p)) (x :: l)
      = x :: ps.foldl (fun r p => r.set (base + p.1) (cellf p)) l := by
  induction ps generalizing x l with
  | nil => rfl
  | cons a rest ih =>
    simp only [List.foldl_cons]
    have harith : base + 1 + a.1 = (base + a.1) + 1 := by omega
    rw [harith, List.set_cons_succ]
    exact ih _ _

/-- Writing one profile's measurement cells never touches cell 0: on a
cons row it acts on the tail with all indices shifted down by one. -/
theorem writeEntryCells_cons (x : String) (l : List String) (profileId : Nat)
    (entry : Entry) (baseLine : Option Entry) (diffCols : List TableColumnType)
    (threshold : ℚ) :
    writeEntryCells (x :: l) profileId entry baseLine diffCols threshold
      = x :: writeEntryCellsTail l profileId entry baseLine diffCols threshold := by
  unfold writeEntryCells writeEntryCellsTail
  cases baseLine with
  | some bl =>
    dsimp only
    by_cases h : profileId ≠ 0
    · rw [if_pos h, if_pos h]
      exact foldl_set_shift _ _ _ _ _
    · rw [if_neg h, if_neg h]
      exact foldl_set_shift _ _ _ _ _
  | none =>
    dsimp only
    exact foldl_set_shift _ _ _ _ _

theorem foldl_writeEntryCells_cons (slots : idToEntryMap) (baseLine : Option Entry)
    (diffCols : List TableColumnType) (threshold : ℚ) :
    ∀ (x : String) (l : List String),
      slots.foldl (fun r pe => writeEntryCells r pe.1 pe.2 baseLine diffCols threshold)
          (x :: l)
        = x :: slots.foldl
            (fun r pe => writeEntryCellsTail r pe.1 pe.2 baseLine diffCols threshold) l := by
  induction slots with
  | nil => intro x l; rfl
  | cons a rest ih =>
    intro x l
    simp only [List.foldl_cons, writeEntryCells_cons]
    exact ih _ _

theorem fillMetricCells_cons (x : String) (l : List String) (name : String)
    (entryGroupsByName : correlatedEntriesMap) (diffCols : List TableColumnType)
    (threshold : ℚ) :
    fillMetricCells (x :: l) name entryGroupsByName diffCols threshold
      = x :: fillMetricCellsTail l name entryGroupsByName diffCols threshold := by
  unfold fillMetricCells fillMetricCellsTail
  exact foldl_writeEntryCells_cons _ _ _ _ _ _

/-- A built row is the call-stack cell followed by a tail that depends on
the node only through its function name. -/
theorem buildRow_eq (pe : Entry) (numProfiles : Nat)
    (entryGroupsByName : correlatedEntriesMap) (diffCols : List TableColumnType)
    (threshold : ℚ) :
    buildRow pe numProfiles entryGroupsByName diffCols threshold
      = callCell pe
        :: fillMetricCellsTail (List.replicate (numProfiles * diffCols.length) "")
            pe.name entryGroupsByName diffCols threshold := by
  unfold buildRow
  have hrep : (List.replicate (numProfiles * diffCols.length + 1) "").set 0 (callCell pe)
      = callCell pe :: List.replicate (numProfiles * diffCols.length) "" := by
    rw [List.replicate_succ, List.set_cons_zero]
  rw [hrep, fillMetricCells_cons]

theorem slot_eq_lookupId_getD (groups : correlatedEntriesMap) (s : String) (i : Nat) :
    slot groups s i = lookupId ((lookupName groups s).getD []) i := by
  rw [slot]
  cases lookupName groups s with
  | some l => rfl
  | none => rfl

/-- C10: two baseline-tree nodes sharing a function name produce rows
whose metric cells (everything after the call-stack cell) are identical —
they are looked up from the correlation map purely by name — and the map
entry both rows draw their baseline metrics from is the *last* pre-order
occurrence of that name in the baseline tree, not the node the row is
anchored to. -/
theorem sameName_rows_share_metric_cells (profiles : List Entry) (hne : profiles ≠ [])
    (a b : Entry) (ha : a ∈ preorder (profiles.headD default))
    (hb : b ∈ preorder (profiles.headD default)) (hname : a.name = b.name)
    (numProfiles : Nat) (diffCols : List TableColumnType) (threshold : ℚ) :
    (buildRow a numProfiles (correlateEntries profiles) diffCols threshold).tail
      = (buildRow b numProfiles (correlateEntries profiles) diffCols threshold).tail
    ∧ lookupId ((lookupName (correlateEntries profiles) a.name).getD []) 0
        = ((preorder (profiles.headD default)).filter
            (fun e => e.name == a.name)).getLast? := by
  constructor
  · rw [buildRow_eq, buildRow_eq]
    simp only [List.tail_cons]
    rw [hname]
  · have h0 : 0 < profiles.length := by
      cases profiles with
      | nil => exact absurd rfl hne
      | cons p rest => simp
    have hgetD : profiles.getD 0 default = profiles.headD default := by
      cases profiles with
      | nil => rfl
      | cons p rest => rfl
    rw [← slot_eq_lookupId_getD, slot_correlateEntries profiles a.name 0 h0, hgetD]
    rfl

/-- Witness for C10: the baseline tree `main(b, b)` contains two distinct
nodes named "b" (total times 1 and 2 ns). -/
theorem sameName_rows_share_metric_cells_witness :
    ([Entry.mk "main" 10 0 0 1 0 [Entry.mk "b" 1 0 0 1 1 [], Entry.mk "b" 2 0 0 1 1 []]] : List Entry) ≠ []
    ∧ (Entry.mk "b" 1 0 0 1 1 []) ∈ preorder
        (([Entry.mk "main" 10 0 0 1 0 [Entry.mk "b" 1 0 0 1 1 [], Entry.mk "b" 2 0 0 1 1 []]] : List Entry).headD default)
    ∧ (Entry.mk "b" 2 0 0 1 1 []) ∈ preorder
        (([Entry.mk "main" 10 0 0 1 0 [Entry.mk "b" 1 0 0 1 1 [], Entry.mk "b" 2 0 0 1 1 []]] : List Entry).headD default)
    ∧ (Entry.mk "b" 1 0 0 1 1 []).name = (Entry.mk "b" 2 0 0 1 1 []).name
    ∧ ((buildRow (Entry.mk "b" 1 0 0 1 1 []) 1
          (correlateEntries
            [Entry.mk "main" 10 0 0 1 0 [Entry.mk "b" 1 0 0 1 1 [], Entry.mk "b" 2 0 0 1 1 []]])
          [TableColumnType.total] 0).tail
        = (buildRow (Entry.mk "b" 2 0 0 1 1 []) 1
          (correlateEntries
            [Entry.mk "main" 10 0 0 1 0 [Entry.mk "b" 1 0 0 1 1 [], Entry.mk "b" 2 0 0 1 1 []]])
          [TableColumnType.total] 0).tail
      ∧ lookupId ((lookupName (correlateEntries
            [Entry.mk "main" 10 0 0 1 0 [Entry.mk "b" 1 0 0 1 1 [], Entry.mk "b" 2 0 0 1 1 []]])
            (Entry.mk "b" 1 0 0 1 1 []).name).getD []) 0
        = ((preorder (([Entry.mk "main" 10 0 0 1 0 [Entry.mk "b" 1 0 0 1 1 [], Entry.mk "b" 2 0 0 1 1 []]] : List Entry).headD default)).filter
            (fun e => e.name == (Entry.mk "b" 1 0 0 1 1 []).name)).getLast?) :=
  ⟨by simp,
   by simp [preorder, preorderList],
   by simp [preorder, preorderList],
   rfl,
   sameName_rows_share_metric_cells
     [Entry.mk "main" 10 0 0 1 0 [Entry.mk "b" 1 0 0 1 1 [], Entry.mk "b" 2 0 0 1 1 []]]
     (by simp) (Entry.mk "b" 1 0 0 1 1 []) (Entry.mk "b" 2 0 0 1 1 [])
     (by simp [preorder, preorderList]) (by simp [preorder, preorderList]) rfl
     1 [TableColumnType.total] 0⟩

/-! ### Fixed display units (claim C7) -/

/-- C7 (spec-modelled): a fixed requested unit "ns"/"us"/"ms" resolves to
the constant divisor 1 / 1e3 / 1e6 nanoseconds-per-unit with the matching
suffix, independently of the sampled magnitude, and the resolved pair is
applied uniformly to every duration cell of the invocation: each rendered
value is the raw nanosecond value divided by that one divisor, suffixed
with that one unit. -/
theorem renderTableDurations_fixed_units (sample : ℚ) (cells : List ℚ) :
    resolveUnit DisplayUnit.unitNs sample = (1, "ns")
    ∧ resolveUnit DisplayUnit.unitUs sample = (1000, "us")
    ∧ resolveUnit DisplayUnit.unitMs sample = (1000000, "ms")
    ∧ renderTableDurations DisplayUnit.unitNs sample cells
        = cells.map (fun raw => fmt2 (raw / 1) ++ " " ++ "ns")
    ∧ renderTableDurations DisplayUnit.unitUs sample cells
        = cells.map (fun raw => fmt2 (raw / 1000) ++ " " ++ "us")
    ∧ renderTableDurations DisplayUnit.unitMs sample cells
        = cells.map (fun raw => fmt2 (raw / 1000000) ++ " " ++ "ms") := by
  refine ⟨rfl, rfl, rfl, ?_, ?_, ?_⟩ <;>
    simp [renderTableDurations, renderDuration, resolveUnit]

/-! ### `DiffProfiles` error behavior (claim C8) -/

theorem loadProfilesLoop_error_iff (loadProfile : String → Except String Entry)
    (args : List String) :
    (∃ e, loadProfilesLoop loadProfile args = Except.error e)
      ↔ ∃ a ∈ args, ∃ msg, loadProfile a = Except.error msg := by
  induction args with
  | nil => simp [loadProfilesLoop]
  | cons a rest ih =>
    rw [loadProfilesLoop]
    cases hl : loadProfile a with
    | error e =>
      simp only [List.mem_cons]
      constructor
      · intro _
        exact ⟨a, Or.inl rfl, e, hl⟩
      · intro _
        exact ⟨e, rfl⟩
    | ok p =>
      cases hr : loadProfilesLoop loadProfile rest with
      | error e =>
        simp only [List.mem_cons]
        constructor
        · intro _
          rcases ih.mp ⟨e, hr⟩ with ⟨x, hx, msg, hmsg⟩
          exact ⟨x, Or.inr hx, msg, hmsg⟩
        · intro _
          exact ⟨e, rfl⟩
      | ok ps =>
        simp only [List.mem_cons]
        constructor
        · rintro ⟨e, he⟩
          cases he
        · rintro ⟨x, hx | hx, msg, hmsg⟩
          · rw [hx] at hmsg
            rw [hl] at hmsg
            cases hmsg
          · rcases ih.mpr ⟨x, hx, msg, hmsg⟩ with ⟨e, he⟩
            rw [he] at hr
            cases hr

/-- C8: `DiffProfiles` fails — and produces no table — exactly when fewer
than two profile arguments are supplied, or the resolved display-column
list is empty, or loading some profile argument fails; in every other case
it produces exactly one table (the `Except.ok` payload, which the Go code
writes to standard output before returning nil). -/
theorem DiffProfiles_error_characterization
    (parseTableColumList : String → List TableColumnType)
    (loadProfile : String → Except String Entry) (ctx : CliContext) :
    ((∃ e, DiffProfiles parseTableColumList loadProfile ctx = Except.error e)
      ↔ (ctx.args.length < 2 ∨ parseTableColumList ctx.columns = []
          ∨ ∃ a ∈ ctx.args, ∃ msg, loadProfile a = Except.error msg))
    ∧ (¬(ctx.args.length < 2 ∨ parseTableColumList ctx.columns = []
          ∨ ∃ a ∈ ctx.args, ∃ msg, loadProfile a = Except.error msg) →
        ∃ tbl, DiffProfiles parseTableColumList loadProfile ctx = Except.ok tbl) := by
  unfold DiffProfiles
  by_cases hlen : ctx.args.length < 2
  · rw [if_pos hlen]
    constructor
    · constructor
      · intro _
        exact Or.inl hlen
      · intro _
        exact ⟨DiffError.notEnoughProfiles, rfl⟩
    · intro h
      exact absurd (Or.inl hlen) h
  · rw [if_neg hlen]
    dsimp only
    by_cases hcols : (parseTableColumList ctx.columns).length = 0
    · rw [if_pos hcols]
      have hnil : parseTableColumList ctx.columns = [] := List.length_eq_zero.mp hcols
      constructor
      · constructor
        · intro _
          exact Or.inr (Or.inl hnil)
        · intro _
          exact ⟨DiffError.noDiffColumnsSpecified, rfl⟩
      · intro h
        exact absurd (Or.inr (Or.inl hnil)) h
    · rw [if_neg hcols]
      have hnnil : parseTableColumList ctx.columns ≠ [] := by
        intro h
        exact hcols (by rw [h]; rfl)
      cases hload : loadProfilesLoop loadProfile ctx.args with
      | error e =>
        constructor
        · constructor
          · intro _
            exact Or.inr (Or.inr ((loadProfilesLoop_error_iff loadProfile ctx.args).mp ⟨e, hload⟩))
          · intro _
            exact ⟨DiffError.loadError e, rfl⟩
        · intro h
          exact absurd (Or.inr (Or.inr
            ((loadProfilesLoop_error_iff loadProfile ctx.args).mp ⟨e, hload⟩))) h
      | ok profiles =>
        constructor
        · constructor
          · rintro ⟨e, he⟩
            cases he
          · rintro (h | h | h)
            · exact absurd h hlen
            · exact absurd h hnnil
            · rcases (loadProfilesLoop_error_iff loadProfile ctx.args).mpr h with ⟨e, he⟩
              rw [he] at hload
              cases hload
        · intro _
          exact ⟨_, rfl⟩

/-- Witness for C8: two loadable arguments and a non-empty column list
produce a table. -/
theorem DiffProfiles_error_characterization_witness :
    ¬((⟨["a", "b"], "total", 0⟩ : CliContext).args.length < 2
        ∨ (fun _ => [TableColumnType.total]) (⟨["a", "b"], "total", 0⟩ : CliContext).columns = []
        ∨ ∃ a ∈ (⟨["a", "b"], "total", 0⟩ : CliContext).args, ∃ msg,
            (fun _ => (Except.ok (Entry.mk "main" 0 0 0 0 0 []) : Except String Entry)) a = Except.error msg)
    ∧ ∃ tbl, DiffProfiles (fun _ => [TableColumnType.total])
        (fun _ => (Except.ok (Entry.mk "main" 0 0 0 0 0 []) : Except String Entry))
        (⟨["a", "b"], "total", 0⟩ : CliContext) = Except.ok tbl :=
  ⟨by simp,
   (DiffProfiles_error_characterization (fun _ => [TableColumnType.total])
     (fun _ => (Except.ok (Entry.mk "main" 0 0 0 0 0 []) : Except String Entry))
     (⟨["a", "b"], "total", 0⟩ : CliContext)).2 (by simp)⟩

end Prism
